import Mathlib

/-!
Verification development for the Olist ETL pipeline
(`pipeline_olist.py`, `prefect_pipeline.py`).

Tabular data is embedded shallowly: a relation is a `List Row` where a
`Row` is an association list from column names to values.  A value is a
string, a rational number, or the null sentinel `vnull` (pandas `NaN`/
`NaT`/`None` are all modelled by `vnull`; looking up a column absent from
a row also yields `vnull`, matching the null-fill of pandas left joins).
Timestamps are modelled as epoch seconds; `pd.to_datetime(-, errors :=
coerce)` is abstracted as an arbitrary parse oracle `Val → Option ℤ`
(unparseable input ↦ `none` ↦ `NaT`).
-/

namespace Olist

inductive Val where
  | vstr : String → Val
  | vnum : ℚ → Val
  | vnull : Val
deriving DecidableEq, Repr

open Val

/-- A row of a pandas DataFrame: an association list column ↦ value. -/
abbrev Row := List (String × Val)

/-- Column lookup; an absent column reads as the null sentinel
(pandas fills unmatched join columns with `NaN`). -/
def getV (r : Row) (c : String) : Val :=
  match r.find? (fun p => p.1 = c) with
  | some p => p.2
  | none => vnull

/-- Whether a row has a column at all (present even if null-valued). -/
def hasCol (r : Row) (c : String) : Bool :=
  (r.find? (fun p => p.1 = c)).isSome

/-- Column assignment `df[c] = v` (on one row): overwrite in place if the
column exists, else append it (pandas adds new columns at the end). -/
def setCol (r : Row) (c : String) (v : Val) : Row :=
  if hasCol r c then r.map (fun p => if p.1 = c then (c, v) else p)
  else r ++ [(c, v)]

/-- `df.dropna(subset := cols)`: keep only the rows where every column in
`cols` is non-null. -/
def dropnaSubset (rel : List Row) (cols : List String) : List Row :=
  rel.filter (fun r => cols.all (fun c => getV r c ≠ vnull))

/-- `left.merge(right, on := k, how := "left")`: for each left row in
order, pair it with every matching right row (the key column of the right
row is dropped; the real schemas share only the key column, and the spec
resolves any other collision in favour of the left relation); an
unmatched left row survives alone, its missing right columns reading as
`vnull` via `getV`. -/
def mergeLeft (L R : List Row) (k : String) : List Row :=
  L.flatMap (fun l =>
    let ms := R.filter (fun r => getV r k = getV l k)
    if ms.isEmpty then [l]
    else ms.map (fun r => l ++ r.filter (fun p => p.1 ≠ k)))

/-- `transform_data` (pipeline_olist.py lines 53-72, and the identical
`transform_task` of prefect_pipeline.py): clean the four relations by
dropping rows with missing critical ids, then left-join
orders ⋈ customers ⋈ order_items ⋈ payments.
Returns (merged, cleaned customers, cleaned orders). -/
def transform_data (customers order_items payments orders : List Row) :
    List Row × List Row × List Row :=
  let customers := dropnaSubset customers ["customer_id"]
  let orders := dropnaSubset orders ["order_id", "customer_id"]
  let order_items := dropnaSubset order_items ["order_id"]
  let payments := dropnaSubset payments ["order_id"]
  let merged :=
    mergeLeft
      (mergeLeft (mergeLeft orders customers "customer_id") order_items "order_id")
      payments "order_id"
  (merged, customers, orders)

/-! ### Grouping and aggregation primitives (pandas `groupby`/`agg`) -/

/-- The tuple of key-column values of a row. -/
def keyTup (cols : List String) (r : Row) : List Val := cols.map (getV r)

/-- The group keys of `rel.groupby(cols)`: the distinct key tuples among
the rows, excluding (pandas `dropna := True`, the default) every row with
a null in any key column. -/
def groupKeys (cols : List String) (rel : List Row) : List (List Val) :=
  ((rel.filter (fun r => (keyTup cols r).all (fun v => v ≠ vnull))).map
    (keyTup cols)).dedup

/-- The rows of the group with key tuple `t`. -/
def groupRows (cols : List String) (rel : List Row) (t : List Val) : List Row :=
  rel.filter (fun r => keyTup cols r = t)

/-- The values of column `c` across the rows of a group. -/
def colVals (g : List Row) (c : String) : List Val := g.map (fun r => getV r c)

/-- Numeric reading of a value (`NaN`/strings are not numbers). -/
def toNum : Val → Option ℚ
  | vnum q => some q
  | _ => none

/-- The numeric entries of a column, nulls skipped (pandas `skipna`). -/
def nums (vs : List Val) : List ℚ := vs.filterMap toNum

/-- `count` aggregation: number of non-null entries. -/
def cntNN (vs : List Val) : ℕ := (vs.filter (fun v => v ≠ vnull)).length

/-- `nunique` aggregation: number of distinct non-null entries. -/
def nuniqueNN (vs : List Val) : ℕ := ((vs.filter (fun v => v ≠ vnull)).dedup).length

/-- `sum` aggregation: nulls skipped; empty/all-null sums to 0. -/
def sumNN (vs : List Val) : ℚ := (nums vs).sum

/-- `mean` aggregation: nulls skipped; mean of no numbers is `NaN`. -/
def meanNN (vs : List Val) : Option ℚ :=
  let xs := nums vs
  if xs.isEmpty then none else some (xs.sum / xs.length)

/-- `min` aggregation: nulls skipped. -/
def minNN (vs : List Val) : Option ℚ :=
  match nums vs with
  | [] => none
  | x :: xs => some (xs.foldl min x)

/-- `max` aggregation: nulls skipped. -/
def maxNN (vs : List Val) : Option ℚ :=
  match nums vs with
  | [] => none
  | x :: xs => some (xs.foldl max x)

/-- Insertion into a sorted list of rationals. -/
def insertSorted (x : ℚ) : List ℚ → List ℚ
  | [] => [x]
  | y :: ys => if x ≤ y then x :: y :: ys else y :: insertSorted x ys

/-- Insertion sort on rationals. -/
def sortQ (l : List ℚ) : List ℚ := l.foldr insertSorted []

/-- `median` aggregation: nulls skipped; midpoint interpolation for an
even number of entries. -/
def medianNN (vs : List Val) : Option ℚ :=
  let xs := sortQ (nums vs)
  let n := xs.length
  if n = 0 then none
  else if n % 2 = 1 then some (xs.getD (n / 2) 0)
  else some ((xs.getD (n / 2 - 1) 0 + xs.getD (n / 2) 0) / 2)

/-- Sample variance (`ddof := 1`, as pandas `std`): nulls skipped; `NaN`
on fewer than two numeric entries.  The source's `std_delivery_days` is
the square root of this quantity, which is irrational in general; every
claim about it concerns only which entries are included, which the
variance witnesses identically. -/
def varNN (vs : List Val) : Option ℚ :=
  let xs := nums vs
  if xs.length ≤ 1 then none
  else
    let m := xs.sum / xs.length
    some ((xs.map (fun x => (x - m) ^ 2)).sum / ((xs.length : ℚ) - 1))

/-! ### Sales summary (pipeline_olist.py 186-247, prefect_pipeline.py 193-256) -/

/-- One row of the grouped sales aggregate (before persistence).
Counts are naturals; `sum` can never be null (it defaults to 0), the
means can (`none` = `NaN`). -/
structure SalesAggRow where
  customer_id : Val
  customer_state : Val
  customer_city : Val
  total_spent : ℚ
  total_orders : ℕ
  total_items : ℕ
  avg_order_value : Option ℚ
  avg_price : Option ℚ
  avg_freight : Option ℚ
deriving DecidableEq, Repr

def salesGroupCols : List String := ["customer_id", "customer_state", "customer_city"]

/-- The aggregate row for group key `k` of the sales summary `groupby`/
`agg` (this block is textually identical in the two pipeline files). -/
def mkSalesAggRow (merged : List Row) (k : List Val) : SalesAggRow :=
  let g := groupRows salesGroupCols merged k
  { customer_id := k.getD 0 vnull
    customer_state := k.getD 1 vnull
    customer_city := k.getD 2 vnull
    total_spent := sumNN (colVals g "payment_value")
    total_orders := nuniqueNN (colVals g "order_id")
    total_items := cntNN (colVals g "order_id")
    avg_order_value := meanNN (colVals g "payment_value")
    avg_price := meanNN (colVals g "price")
    avg_freight := meanNN (colVals g "freight_value") }

/-- The grouped sales aggregate of pipeline_olist.py (lines 192-201). -/
def salesAgg_olist (merged : List Row) : List SalesAggRow :=
  (groupKeys salesGroupCols merged).map (mkSalesAggRow merged)

/-- The grouped sales aggregate of prefect_pipeline.py (lines 201-210);
the `groupby`/`agg` recipe is textually identical to the olist one. -/
def salesAgg_prefect (merged : List Row) : List SalesAggRow :=
  (groupKeys salesGroupCols merged).map (mkSalesAggRow merged)

/-- Python `str(-)` on a value (numeric rendering abstracted by
`toString`); only applied under a notna guard or to group keys. -/
def pyStr : Val → String
  | vstr s => s
  | vnum q => toString q
  | vnull => "nan"

/-- Whether a value is a string (ids and group keys are strings in the
real data; the loader never produces numeric id columns here). -/
def isStr : Val → Bool
  | vstr _ => true
  | _ => false

/-- `sales_summary.fillna(0)` (pipeline_olist.py line 204): every null
entry of the aggregate table, in any column, becomes the number 0. -/
def fillna0Sales (r : SalesAggRow) : SalesAggRow :=
  { r with
    customer_id := if r.customer_id = vnull then vnum 0 else r.customer_id
    customer_state := if r.customer_state = vnull then vnum 0 else r.customer_state
    customer_city := if r.customer_city = vnull then vnum 0 else r.customer_city
    avg_order_value := some (r.avg_order_value.getD 0)
    avg_price := some (r.avg_price.getD 0)
    avg_freight := some (r.avg_freight.getD 0) }

/-- The 9-tuple of values pipeline_olist.py sends to the
`INSERT INTO sales_summary` (lines 227-243): `str(x) if notna else None`
on the keys, `float(x) if notna else 0.0` / `int(x) if notna else 0` on
the numerics (after `fillna(0)` the numeric guards never fire). -/
def persistSalesRow_olist (r0 : SalesAggRow) : List Val :=
  let r := fillna0Sales r0
  [ if r.customer_id ≠ vnull then vstr (pyStr r.customer_id) else vnull,
    if r.customer_state ≠ vnull then vstr (pyStr r.customer_state) else vnull,
    if r.customer_city ≠ vnull then vstr (pyStr r.customer_city) else vnull,
    vnum r.total_spent,
    vnum r.total_orders,
    vnum r.total_items,
    vnum (r.avg_order_value.getD 0),
    vnum (r.avg_price.getD 0),
    vnum (r.avg_freight.getD 0) ]

/-- The 9-tuple prefect_pipeline.py sends to its `INSERT` (lines
233-249): raw key values, `float(x)` / `int(x)` with no notna guard and
no `fillna` — `float(NaN)` is `NaN`, which is persisted as-is. -/
def persistSalesRow_prefect (r : SalesAggRow) : List Val :=
  [ r.customer_id,
    r.customer_state,
    r.customer_city,
    vnum r.total_spent,
    vnum r.total_orders,
    vnum r.total_items,
    (r.avg_order_value.map vnum).getD vnull,
    (r.avg_price.map vnum).getD vnull,
    (r.avg_freight.map vnum).getD vnull ]

/-- The rows `create_sales_summary` of pipeline_olist.py persists. -/
def create_sales_summary_olist (merged : List Row) : List (List Val) :=
  (salesAgg_olist merged).map persistSalesRow_olist

/-- The rows `create_sales_summary` of prefect_pipeline.py persists. -/
def create_sales_summary_prefect (merged : List Row) : List (List Val) :=
  (salesAgg_prefect merged).map persistSalesRow_prefect

/-! ### Product summary (pipeline_olist.py 333-383) -/

/-- One row of the product summary aggregate. -/
structure ProdRow where
  product_id : Val
  total_orders : ℕ
  total_items_sold : ℕ
  total_revenue : ℚ
  avg_price : Option ℚ
  total_freight : ℚ
  avg_freight : Option ℚ
deriving DecidableEq, Repr

/-- `create_product_summary`'s `groupby("product_id").agg(...)`
(pipeline_olist.py lines 338-345; identical in prefect_pipeline.py). -/
def create_product_summary (merged : List Row) : List ProdRow :=
  (groupKeys ["product_id"] merged).map (fun k =>
    let g := groupRows ["product_id"] merged k
    { product_id := k.getD 0 vnull
      total_orders := nuniqueNN (colVals g "order_id")
      total_items_sold := cntNN (colVals g "order_id")
      total_revenue := sumNN (colVals g "price")
      avg_price := meanNN (colVals g "price")
      total_freight := sumNN (colVals g "freight_value")
      avg_freight := meanNN (colVals g "freight_value") })

/-! ### State summary (pipeline_olist.py 388-435) -/

/-- One row of the state summary aggregate. -/
structure StateRow where
  customer_state : Val
  total_customers : ℕ
  total_orders : ℕ
  total_revenue : ℚ
  avg_order_value : Option ℚ
  total_items : ℕ
deriving DecidableEq, Repr

/-- `create_state_summary`'s `groupby("customer_state").agg(...)`
(pipeline_olist.py lines 393-399; identical in prefect_pipeline.py). -/
def create_state_summary (merged : List Row) : List StateRow :=
  (groupKeys ["customer_state"] merged).map (fun k =>
    let g := groupRows ["customer_state"] merged k
    { customer_state := k.getD 0 vnull
      total_customers := nuniqueNN (colVals g "customer_id")
      total_orders := nuniqueNN (colVals g "order_id")
      total_revenue := sumNN (colVals g "payment_value")
      avg_order_value := meanNN (colVals g "payment_value")
      total_items := cntNN (colVals g "order_id") })

/-! ### Delivery summary (pipeline_olist.py 252-328, prefect 265-345) -/

/-- `pd.to_datetime(-, errors := "coerce")` on one value, through the
parse oracle: success gives the timestamp (epoch seconds), failure `NaT`. -/
def parseVal (parse : Val → Option ℤ) (v : Val) : Val :=
  match parse v with
  | some n => vnum n
  | none => vnull

/-- Timedelta `.dt.days`: whole-day floor of `delivered − purchase`
(null if either operand is `NaT`). -/
def tdDays (d p : Val) : Val :=
  match d, p with
  | vnum x, vnum y => vnum ((⌊(x - y) / 86400⌋ : ℤ) : ℚ)
  | _, _ => vnull

/-- The in-place column mutations of `create_delivery_summary`
(pipeline_olist.py lines 258-266) on one orders row: overwrite the two
timestamp columns with their coerce-parsed values, then add
`delivery_days` computed from the overwritten columns. -/
def deliveryRowAfter (parse : Val → Option ℤ) (r : Row) : Row :=
  let r1 := setCol r "order_delivered_customer_date"
      (parseVal parse (getV r "order_delivered_customer_date"))
  let r2 := setCol r1 "order_purchase_timestamp"
      (parseVal parse (getV r1 "order_purchase_timestamp"))
  setCol r2 "delivery_days"
    (tdDays (getV r2 "order_delivered_customer_date")
      (getV r2 "order_purchase_timestamp"))

/-- The cleaned orders relation as it stands after
`create_delivery_summary` ran its column assignments (the frame effect
on the caller's `orders_clean`). -/
def ordersAfterDelivery (parse : Val → Option ℤ) (orders : List Row) : List Row :=
  orders.map (deliveryRowAfter parse)

/-- One row of the delivery summary aggregate.  `var_delivery_days` is
the sample variance; the source's `std_delivery_days` is its square
root (see `varNN`). -/
structure DeliveryRow where
  customer_state : Val
  total_orders : ℕ
  delivered_orders : ℕ
  avg_delivery_days : Option ℚ
  median_delivery_days : Option ℚ
  fastest_delivery : Option ℚ
  slowest_delivery : Option ℚ
  var_delivery_days : Option ℚ
  delivery_rate : ℚ
deriving DecidableEq, Repr

/-- `delivery_data = orders.merge(customers, on := "customer_id",
how := "left")` after the in-place mutation (pipeline_olist.py line
269). -/
def deliveryData (parse : Val → Option ℤ) (orders customers : List Row) : List Row :=
  mergeLeft (ordersAfterDelivery parse orders) customers "customer_id"

/-- The aggregate row for one state group of the delivery summary
(pipeline_olist.py lines 272-285): the `agg` dictionary plus the derived
`delivery_rate = delivered_orders / total_orders * 100`. -/
def mkDeliveryRow (dd : List Row) (k : List Val) : DeliveryRow :=
  let g := groupRows ["customer_state"] dd k
  let total := cntNN (colVals g "order_id")
  let delivered := cntNN (colVals g "delivery_days")
  { customer_state := k.getD 0 vnull
    total_orders := total
    delivered_orders := delivered
    avg_delivery_days := meanNN (colVals g "delivery_days")
    median_delivery_days := medianNN (colVals g "delivery_days")
    fastest_delivery := minNN (colVals g "delivery_days")
    slowest_delivery := maxNN (colVals g "delivery_days")
    var_delivery_days := varNN (colVals g "delivery_days")
    delivery_rate := (delivered : ℚ) / (total : ℚ) * 100 }

/-- `create_delivery_summary` (pipeline_olist.py lines 252-285, modulo
persistence; identical in prefect_pipeline.py): mutate orders, left-join
customers, group by state, aggregate. -/
def create_delivery_summary (parse : Val → Option ℤ)
    (orders customers : List Row) : List DeliveryRow :=
  (groupKeys ["customer_state"] (deliveryData parse orders customers)).map
    (mkDeliveryRow (deliveryData parse orders customers))

/-! ### Master table loader (pipeline_olist.py 77-181) -/

/-- `safe_get(row, column, default=None)` (lines 112-120): the value, or
`default` when the column is absent or its value is `NaN`. -/
def safe_get (row : Row) (column : String) (default : Val := vnull) : Val :=
  match row.find? (fun p => p.1 = column) with
  | some p => if p.2 = vnull then default else p.2
  | none => default

/-- `safe_float(val, default=0.0)` (lines 122-129): the number, or
`default` on `NaN`; `float(-)` of a non-numeric value raises and is
caught, yielding `default` (the loader types numeric columns as numbers,
so the numeric-string case of Python `float` is folded into the
exception branch). -/
def safe_float (val : Val) (default : ℚ := 0) : ℚ :=
  match val with
  | vnum q => q
  | _ => default

/-- `safe_datetime(val)` (lines 131-138): `None` on `NaN`, else the
string rendering `str(val)`. -/
def safe_datetime (val : Val) : Val :=
  match val with
  | vnull => vnull
  | v => vstr (pyStr v)

/-- One row of the `olist_master` table (the 13 business columns). -/
structure MasterFact where
  order_id : Val
  customer_id : Val
  customer_city : Val
  customer_state : Val
  customer_zip_code_prefix : Val
  order_status : Val
  order_purchase_timestamp : Val
  order_delivered_customer_date : Val
  price : ℚ
  freight_value : ℚ
  payment_type : Val
  payment_value : ℚ
  product_id : Val
deriving DecidableEq, Repr

/-- The coercion of one merged row into the `INSERT INTO olist_master`
tuple (pipeline_olist.py lines 150-170).  Total: no input row can make
it fail, because the three safe accessors default instead of raising. -/
def projectMasterRow (row : Row) : MasterFact :=
  { order_id := safe_get row "order_id"
    customer_id := safe_get row "customer_id"
    customer_city := safe_get row "customer_city"
    customer_state := safe_get row "customer_state"
    customer_zip_code_prefix := safe_get row "customer_zip_code_prefix"
    order_status := safe_get row "order_status"
    order_purchase_timestamp := safe_datetime (safe_get row "order_purchase_timestamp")
    order_delivered_customer_date := safe_datetime (safe_get row "order_delivered_customer_date")
    price := safe_float (safe_get row "price") 0
    freight_value := safe_float (safe_get row "freight_value") 0
    payment_type := safe_get row "payment_type"
    payment_value := safe_float (safe_get row "payment_value") 0
    product_id := safe_get row "product_id" }

/-- Structural worker for the batch slicing: the fuel (an upper bound on
the list length) makes the recursion structural, so that it reduces by
evaluation; each step emits `take n` and recurses on the rest
(`drop (n - 1 + 1)` = `drop n` for `n ≥ 1`, and consumes at least one
row even for `n = 0`). -/
def chunksAux (n : ℕ) : ℕ → List Row → List (List Row)
  | _, [] => []
  | 0, _ :: _ => []
  | fuel + 1, r :: rs =>
    ((r :: rs).take n) :: chunksAux n fuel ((r :: rs).drop (n - 1 + 1))

/-- `merged_df.iloc[i:i+batch_size]` slicing of the batch loop (lines
145-146): the list cut into chunks of `n` (`n = 1000` in the source). -/
def chunksOf (n : ℕ) (l : List Row) : List (List Row) := chunksAux n l.length l

/-- The inner row loop of `load_master_table` over one batch (lines
148-175).  `insertFails f = true` models `cursor.execute` raising for
that tuple (an external event, parametrised as an oracle on the inserted
fact); `errs0` is the error count accumulated before this batch.
Returns (facts inserted, rows inserted, new errors, new log lines):
a failing row is skipped and counted, and logged only while the running
error count is ≤ 5. -/
def insertBatch (insertFails : MasterFact → Bool) (errs0 : ℕ) :
    List Row → List MasterFact × ℕ × ℕ × ℕ
  | [] => ([], 0, 0, 0)
  | r :: rs =>
    let f := projectMasterRow r
    if insertFails f then
      let logHere : ℕ := if errs0 + 1 ≤ 5 then 1 else 0
      let (facts, t, e, lg) := insertBatch insertFails (errs0 + 1) rs
      (facts, t, e + 1, lg + logHere)
    else
      let (facts, t, e, lg) := insertBatch insertFails errs0 rs
      (f :: facts, t + 1, e, lg)

/-- The outer batch loop of `load_master_table`: process each batch,
commit it (one entry of the returned batch list per commit), and carry
the error count across batches. -/
def loadBatches (insertFails : MasterFact → Bool) (errs0 : ℕ) :
    List (List Row) → List (List MasterFact) × ℕ × ℕ × ℕ
  | [] => ([], 0, 0, 0)
  | b :: bs =>
    let (facts, t, e, lg) := insertBatch insertFails errs0 b
    let (commits, t2, e2, lg2) := loadBatches insertFails (errs0 + e) bs
    (facts :: commits, t + t2, e + e2, lg + lg2)

/-- `load_master_table` (pipeline_olist.py lines 77-181; the prefect
version differs only in not logging): batches of 1000, commit after each
batch; returns (committed batches, total_rows, errors, log lines). -/
def load_master_table (insertFails : MasterFact → Bool) (merged : List Row) :
    List (List MasterFact) × ℕ × ℕ × ℕ :=
  loadBatches insertFails 0 (chunksOf 1000 merged)

/-! ### A concrete scenario (spec §8): one customer in SP whose single
order has two items and three payment installments. -/

def scCustomers : List Row :=
  [[("customer_id", vstr "c1"), ("customer_city", vstr "sao paulo"),
    ("customer_state", vstr "SP"), ("customer_zip_code_prefix", vstr "01000")]]

def scOrder : Row :=
  [("order_id", vstr "o1"), ("customer_id", vstr "c1"),
   ("order_status", vstr "delivered"),
   ("order_purchase_timestamp", vstr "2017-01-01 10:00:00"),
   ("order_delivered_customer_date", vstr "2017-01-08 12:00:00")]

def scOrders : List Row := [scOrder]

def scItems : List Row :=
  [[("order_id", vstr "o1"), ("product_id", vstr "p1"),
    ("price", vnum 10), ("freight_value", vnum 1)],
   [("order_id", vstr "o1"), ("product_id", vstr "p2"),
    ("price", vnum 20), ("freight_value", vnum 2)]]

def scPayments : List Row :=
  [[("order_id", vstr "o1"), ("payment_type", vstr "credit_card"),
    ("payment_value", vnum 33)],
   [("order_id", vstr "o1"), ("payment_type", vstr "voucher"),
    ("payment_value", vnum 5)],
   [("order_id", vstr "o1"), ("payment_type", vstr "voucher"),
    ("payment_value", vnum 7)]]

/-- The merged relation of the scenario: 2 items × 3 payments fan out
into 6 rows for the single order. -/
def scMerged : List Row :=
  (transform_data scCustomers scItems scPayments scOrders).1

/-- A concrete timestamp parse oracle for the scenario: the purchase
instant is epoch second 0, delivery is 7 days and 2 hours later; any
other value is unparseable. -/
def scParse : Val → Option ℤ := fun v =>
  match v with
  | vstr "2017-01-01 10:00:00" => some 0
  | vstr "2017-01-08 12:00:00" => some 612000
  | _ => none

/-! ### Lemmas about row lookup, append (join output) and assignment -/

theorem getV_not_hasCol {r : Row} {c : String} (h : hasCol r c = false) :
    getV r c = vnull := by
  unfold getV
  unfold hasCol at h
  cases hf : r.find? (fun p => p.1 = c) with
  | none => rfl
  | some p => rw [hf] at h; simp at h

theorem hasCol_of_getV_ne {r : Row} {c : String} (h : getV r c ≠ vnull) :
    hasCol r c = true := by
  by_contra hb
  exact h (getV_not_hasCol (by simpa using hb))

theorem getV_append (l r : Row) (c : String) :
    getV (l ++ r) c = if hasCol l c then getV l c else getV r c := by
  unfold getV hasCol
  rw [List.find?_append]
  cases hf : l.find? (fun p => p.1 = c) <;> simp [Option.or]

theorem getV_append_left {l : Row} (r : Row) {c : String} (h : hasCol l c = true) :
    getV (l ++ r) c = getV l c := by
  rw [getV_append, if_pos h]

theorem hasCol_append (l r : Row) (c : String) :
    hasCol (l ++ r) c = (hasCol l c || hasCol r c) := by
  unfold hasCol
  rw [List.find?_append]
  cases hf : l.find? (fun p => p.1 = c) <;> simp [Option.or]

theorem getV_filter_ne_key (r : Row) (k : String) :
    getV (r.filter (fun p => p.1 ≠ k)) k = vnull := by
  unfold getV
  have hnone : (r.filter (fun p => p.1 ≠ k)).find? (fun p => p.1 = k) = none := by
    rw [List.find?_eq_none]
    intro x hx
    rw [List.mem_filter] at hx
    simpa using hx.2
  rw [hnone]

theorem setCol_eq_map {r : Row} {c : String} (h : hasCol r c = true) (v : Val) :
    setCol r c v = r.map (fun p => if p.1 = c then (c, v) else p) := by
  unfold setCol; rw [if_pos h]

theorem setCol_eq_append {r : Row} {c : String} (h : hasCol r c = false) (v : Val) :
    setCol r c v = r ++ [(c, v)] := by
  unfold setCol; rw [if_neg (by simp [h])]

theorem getV_setCol_self (r : Row) (c : String) (v : Val) :
    getV (setCol r c v) c = v := by
  by_cases h : hasCol r c = true
  · rw [setCol_eq_map h v]
    unfold getV
    rw [List.find?_map]
    have hfe : ((fun p : String × Val => decide (p.1 = c)) ∘
        (fun p : String × Val => if p.1 = c then (c, v) else p))
        = fun p : String × Val => decide (p.1 = c) := by
      funext p; by_cases hp : p.1 = c <;> simp [hp]
    rw [hfe]
    unfold hasCol at h
    cases hf : r.find? (fun p => p.1 = c) with
    | none => rw [hf] at h; simp at h
    | some p0 =>
      have hp0 : p0.1 = c := by simpa using List.find?_some hf
      simp [hf, hp0]
  · rw [setCol_eq_append (by simpa using h) v, getV_append,
      if_neg (by simpa using h)]
    simp [getV, List.find?]

theorem getV_setCol_ne (r : Row) {c c' : String} (h : c' ≠ c) (v : Val) :
    getV (setCol r c v) c' = getV r c' := by
  have hccne : ¬c = c' := fun hcc => h hcc.symm
  by_cases hc : hasCol r c = true
  · rw [setCol_eq_map hc v]
    unfold getV
    rw [List.find?_map]
    have hfe : ((fun p : String × Val => decide (p.1 = c')) ∘
        (fun p : String × Val => if p.1 = c then (c, v) else p))
        = fun p : String × Val => decide (p.1 = c') := by
      funext p; by_cases hp : p.1 = c <;> simp [hp]
    rw [hfe]
    cases hf : r.find? (fun p => p.1 = c') with
    | none => rfl
    | some p1 =>
      have hp1 : p1.1 = c' := by simpa using List.find?_some hf
      have hne : (if p1.1 = c then (c, v) else p1) = p1 := by
        rw [if_neg]; rw [hp1]; exact h
      simp [hne]
  · rw [setCol_eq_append (by simpa using hc) v, getV_append]
    by_cases h2 : hasCol r c' = true
    · rw [if_pos h2]
    · rw [if_neg (by simpa using h2),
        getV_not_hasCol (r := r) (c := c') (by simpa using h2)]
      simp [getV, List.find?, decide_eq_false hccne]

theorem hasCol_setCol_self (r : Row) (c : String) (v : Val) :
    hasCol (setCol r c v) c = true := by
  by_cases h : hasCol r c = true
  · rw [setCol_eq_map h v]
    unfold hasCol at h ⊢
    rw [List.find?_isSome]
    rw [Option.isSome_iff_exists] at h
    obtain ⟨p0, hp0⟩ := h
    refine ⟨(c, v), ?_, by simp⟩
    rw [List.mem_map]
    exact ⟨p0, List.mem_of_find?_eq_some hp0, by simp [by simpa using List.find?_some hp0]⟩
  · rw [setCol_eq_append (by simpa using h) v]
    unfold hasCol
    rw [List.find?_isSome]
    exact ⟨(c, v), by simp, by simp⟩

theorem hasCol_setCol_ne (r : Row) {c c' : String} (h : c' ≠ c) (v : Val) :
    hasCol (setCol r c v) c' = hasCol r c' := by
  by_cases hc : hasCol r c = true
  · rw [setCol_eq_map hc v, Bool.eq_iff_iff]
    unfold hasCol
    rw [List.find?_isSome, List.find?_isSome]
    constructor
    · rintro ⟨x, hx, hpx⟩
      rw [List.mem_map] at hx
      obtain ⟨p, hp, hfp⟩ := hx
      refine ⟨p, hp, ?_⟩
      by_cases hpc : p.1 = c
      · rw [if_pos hpc] at hfp
        rw [← hfp] at hpx
        simp at hpx
        exact absurd hpx.symm h
      · rw [if_neg hpc] at hfp
        exact hfp ▸ hpx
    · rintro ⟨p, hp, hpp⟩
      have hpc : p.1 ≠ c := by
        intro hpc
        rw [hpc] at hpp
        simp at hpp
        exact h hpp.symm
      exact ⟨p, List.mem_map.mpr ⟨p, hp, by rw [if_neg hpc]⟩, hpp⟩
  · rw [setCol_eq_append (by simpa using hc) v, hasCol_append]
    have hone : hasCol [(c, v)] c' = false := by
      unfold hasCol
      rw [show List.find? (fun p : String × Val => p.1 = c') [(c, v)] = none by
        rw [List.find?_eq_none]
        intro x hx
        simp at hx
        simp [hx]
        exact fun hcc => h hcc.symm]
      rfl
    rw [hone, Bool.or_false]

/-- A list equal to its own map has every element fixed by the map. -/
theorem map_fix_of_map_eq_self {α : Type} {l : List α} {f : α → α}
    (h : l.map f = l) : ∀ x ∈ l, f x = x := by
  induction l with
  | nil => simp
  | cons a t ih =>
    simp only [List.map_cons, List.cons.injEq] at h
    intro x hx
    rcases List.mem_cons.mp hx with hxa | hxt
    · rw [hxa, h.1]
    · exact ih h.2 x hxt

/-! ### Grouping lemmas -/

/-- Summing occurrence counts over the distinct elements recovers the
length of a list. -/
theorem sum_map_countP_dedup {α : Type} [DecidableEq α] (l : List α) :
    (l.dedup.map (fun x => l.countP (fun y => y = x))).sum = l.length := by
  have h := List.sum_map_count_dedup_eq_length l
  rw [← h]
  apply congrArg List.sum
  apply List.map_congr_left
  intro a _
  rw [List.count_eq_countP]
  apply List.countP_congr
  intro x _
  simp [beq_iff_eq, decide_eq_true_eq]

/-- The groups of a `groupby` partition the rows whose key tuple is
fully non-null: the group sizes sum to the number of such rows. -/
theorem sum_groupRows_length (cols : List String) (rel : List Row) :
    ((groupKeys cols rel).map (fun k => (groupRows cols rel k).length)).sum
      = (rel.filter (fun r => (keyTup cols r).all (fun v => v ≠ vnull))).length := by
  have hmap : ∀ k ∈ ((rel.filter
        (fun r => (keyTup cols r).all (fun v => v ≠ vnull))).map (keyTup cols)).dedup,
      (groupRows cols rel k).length
        = ((rel.filter
            (fun r => (keyTup cols r).all (fun v => v ≠ vnull))).map (keyTup cols)).countP
            (fun y => y = k) := by
    intro k hk
    rw [List.mem_dedup, List.mem_map] at hk
    obtain ⟨r0, hr0, hkr0⟩ := hk
    have hknn : ∀ v ∈ k, ¬v = vnull := by
      intro v hv
      rw [← hkr0] at hv
      rw [List.mem_filter] at hr0
      simpa using List.all_eq_true.mp hr0.2 v hv
    have hgr : groupRows cols rel k
        = (rel.filter (fun r => (keyTup cols r).all (fun v => v ≠ vnull))).filter
            (fun r => keyTup cols r = k) := by
      rw [List.filter_filter]
      unfold groupRows
      apply List.filter_congr
      intro r _
      by_cases hrk : keyTup cols r = k
      · have hall : (keyTup cols r).all (fun v => decide (v ≠ vnull)) = true := by
          rw [hrk, List.all_eq_true]
          intro v hv
          simpa using hknn v hv
        rw [hall, Bool.and_true]
      · simp [hrk]
    rw [hgr, ← List.countP_eq_length_filter, List.countP_map]
    rfl
  calc ((groupKeys cols rel).map (fun k => (groupRows cols rel k).length)).sum
      = (((rel.filter (fun r => (keyTup cols r).all (fun v => v ≠ vnull))).map
          (keyTup cols)).dedup.map
          (fun k => ((rel.filter
            (fun r => (keyTup cols r).all (fun v => v ≠ vnull))).map (keyTup cols)).countP
            (fun y => y = k))).sum := by
        unfold groupKeys
        exact congrArg List.sum (List.map_congr_left hmap)
    _ = ((rel.filter (fun r => (keyTup cols r).all (fun v => v ≠ vnull))).map
          (keyTup cols)).length := sum_map_countP_dedup _
    _ = _ := List.length_map _ _

/-- `count` over a column with no nulls is just the group size. -/
theorem cntNN_eq_length {g : List Row} {c : String}
    (h : ∀ r ∈ g, getV r c ≠ vnull) : cntNN (colVals g c) = g.length := by
  unfold cntNN colVals
  rw [List.filter_eq_self.mpr, List.length_map]
  intro v hv
  rw [List.mem_map] at hv
  obtain ⟨r, hr, hvr⟩ := hv
  simpa [← hvr] using h r hr

/-- Rows surviving the cleaner have all required columns non-null. -/
theorem dropna_getV_ne {rel : List Row} {cols : List String} {r : Row}
    (hr : r ∈ dropnaSubset rel cols) : ∀ c ∈ cols, getV r c ≠ vnull := by
  intro c hc
  simp only [dropnaSubset, List.mem_filter] at hr
  simpa using (List.all_eq_true.mp hr.2) c hc

/-- Every row of a group belongs to the grouped relation. -/
theorem mem_of_mem_groupRows {cols : List String} {rel : List Row}
    {k : List Val} {r : Row} (h : r ∈ groupRows cols rel k) : r ∈ rel :=
  (List.mem_filter.mp h).1

/-- A group key always has at least one row in its group. -/
theorem groupRows_ne_nil {cols : List String} {rel : List Row} {k : List Val}
    (hk : k ∈ groupKeys cols rel) : groupRows cols rel k ≠ [] := by
  rw [groupKeys, List.mem_dedup, List.mem_map] at hk
  obtain ⟨r, hr, hkr⟩ := hk
  have hrg : r ∈ groupRows cols rel k := by
    rw [groupRows, List.mem_filter]
    exact ⟨(List.mem_filter.mp hr).1, by simp [hkr]⟩
  exact List.ne_nil_of_mem hrg

/-! ### Lemmas about the left join -/

/-- Every output row of a left join extends some left row: its values
agree with that left row on every column the left row has. -/
theorem mergeLeft_origin {L R : List Row} {k : String} {m : Row}
    (hm : m ∈ mergeLeft L R k) :
    ∃ l ∈ L, ∀ c, hasCol l c = true → getV m c = getV l c ∧ hasCol m c = true := by
  rw [mergeLeft, List.mem_flatMap] at hm
  obtain ⟨l, hl, hml⟩ := hm
  refine ⟨l, hl, ?_⟩
  by_cases he : (R.filter (fun r => getV r k = getV l k)).isEmpty = true
  · rw [if_pos he] at hml
    rw [List.mem_singleton] at hml
    subst hml
    exact fun c hc => ⟨rfl, hc⟩
  · rw [if_neg he] at hml
    rw [List.mem_map] at hml
    obtain ⟨r, _, hmr⟩ := hml
    subst hmr
    intro c hc
    exact ⟨getV_append_left _ hc, by rw [hasCol_append, hc, Bool.true_or]⟩

/-- Left-join totality: every left row gives rise to at least one output
row agreeing with it on every column it has. -/
theorem mergeLeft_total {L R : List Row} (k : String) {l : Row} (hl : l ∈ L) :
    ∃ m ∈ mergeLeft L R k,
      ∀ c, hasCol l c = true → getV m c = getV l c ∧ hasCol m c = true := by
  cases hms : R.filter (fun r => getV r k = getV l k) with
  | nil =>
    refine ⟨l, ?_, fun c hc => ⟨rfl, hc⟩⟩
    rw [mergeLeft, List.mem_flatMap]
    exact ⟨l, hl, by rw [hms]; simp⟩
  | cons r rs =>
    refine ⟨l ++ r.filter (fun p => p.1 ≠ k), ?_, ?_⟩
    · rw [mergeLeft, List.mem_flatMap]
      refine ⟨l, hl, ?_⟩
      rw [hms, if_neg (by simp)]
      exact List.mem_map_of_mem _ (List.mem_cons_self r rs)
    · intro c hc
      exact ⟨getV_append_left _ hc, by rw [hasCol_append, hc, Bool.true_or]⟩

/-- Row count of a left join, keyed by any column every left row has:
each left row with `c`-value `O` contributes one output row per matching
right row, or one row when unmatched (`max 1 matches`); left rows with
other `c`-values contribute none. -/
theorem countP_mergeLeft (L R : List Row) (k c : String) (O : Val)
    (hc : ∀ l ∈ L, hasCol l c = true) :
    (mergeLeft L R k).countP (fun m => getV m c = O)
      = (L.map (fun l => if getV l c = O
          then max 1 (R.countP (fun r => getV r k = getV l k)) else 0)).sum := by
  unfold mergeLeft
  rw [List.countP_flatMap]
  apply congrArg List.sum
  apply List.map_congr_left
  intro l hl
  simp only [Function.comp_apply]
  show (List.countP (fun m => getV m c = O)
      (if (R.filter (fun r => getV r k = getV l k)).isEmpty = true
        then [l]
        else (R.filter (fun r => getV r k = getV l k)).map
          (fun r => l ++ r.filter (fun p => p.1 ≠ k)))) = _
  by_cases he : (R.filter (fun r => getV r k = getV l k)).isEmpty = true
  · rw [if_pos he]
    have hms : R.countP (fun r => getV r k = getV l k) = 0 := by
      rw [List.countP_eq_length_filter, List.isEmpty_iff.mp he]
      rfl
    rw [hms]
    by_cases hlo : getV l c = O
    · simp [List.countP_cons, hlo]
    · simp [List.countP_cons, hlo]
  · rw [if_neg he]
    have hlen : (R.filter (fun r => getV r k = getV l k)).length
        = R.countP (fun r => getV r k = getV l k) :=
      (List.countP_eq_length_filter _ _).symm
    have hge : 1 ≤ (R.filter (fun r => getV r k = getV l k)).length := by
      rcases hcase : R.filter (fun r => getV r k = getV l k) with _ | ⟨r, rs⟩
      · rw [hcase] at he; simp at he
      · simp
    by_cases hlo : getV l c = O
    · rw [if_pos hlo]
      have hall : ∀ m ∈ (R.filter (fun r => getV r k = getV l k)).map
          (fun r => l ++ r.filter (fun p => p.1 ≠ k)),
          (fun m => decide (getV m c = O)) m = true := by
        intro m hm
        rw [List.mem_map] at hm
        obtain ⟨r, _, hmr⟩ := hm
        rw [← hmr]
        simp [getV_append_left _ (hc l hl), hlo]
      rw [List.countP_eq_length.mpr hall, List.length_map, hlen]
      rw [← hlen]
      omega
    · rw [if_neg hlo]
      apply List.countP_eq_zero.mpr
      intro m hm
      rw [List.mem_map] at hm
      obtain ⟨r, _, hmr⟩ := hm
      rw [← hmr]
      simp [getV_append_left _ (hc l hl), hlo]

/-- A sum of guarded terms that are constant where the guard holds is
the guard count times the constant. -/
theorem sum_ite_count {α : Type} (L : List α) (P : α → Prop) [DecidablePred P]
    (g : α → ℕ) (c : ℕ) (h : ∀ l ∈ L, P l → g l = c) :
    (L.map (fun l => if P l then g l else 0)).sum
      = L.countP (fun l => P l) * c := by
  induction L with
  | nil => simp
  | cons a t ih =>
    have ht := ih (fun l hl hp => h l (List.mem_cons_of_mem a hl) hp)
    by_cases hp : P a
    · simp only [List.map_cons, List.sum_cons, List.countP_cons, if_pos hp,
        decide_eq_true_eq, hp, if_true, ht, h a (List.mem_cons_self a t) hp]
      ring
    · simp only [List.map_cons, List.sum_cons, List.countP_cons, if_neg hp,
        decide_eq_true_eq, hp, if_false, ht]
      simp

/-! ### Lemmas about the delivery aggregator's row mutation -/

theorem deliveryRowAfter_getV_other {parse : Val → Option ℤ} {r : Row}
    {c : String} (h1 : c ≠ "order_delivered_customer_date")
    (h2 : c ≠ "order_purchase_timestamp") (h3 : c ≠ "delivery_days") :
    getV (deliveryRowAfter parse r) c = getV r c := by
  unfold deliveryRowAfter
  rw [getV_setCol_ne _ h3, getV_setCol_ne _ h2, getV_setCol_ne _ h1]

theorem deliveryRowAfter_getV_delivered (parse : Val → Option ℤ) (r : Row) :
    getV (deliveryRowAfter parse r) "order_delivered_customer_date"
      = parseVal parse (getV r "order_delivered_customer_date") := by
  unfold deliveryRowAfter
  rw [getV_setCol_ne _ (show "order_delivered_customer_date" ≠ "delivery_days" by decide),
    getV_setCol_ne _
      (show "order_delivered_customer_date" ≠ "order_purchase_timestamp" by decide),
    getV_setCol_self]

theorem deliveryRowAfter_getV_purchase (parse : Val → Option ℤ) (r : Row) :
    getV (deliveryRowAfter parse r) "order_purchase_timestamp"
      = parseVal parse (getV r "order_purchase_timestamp") := by
  unfold deliveryRowAfter
  rw [getV_setCol_ne _ (show "order_purchase_timestamp" ≠ "delivery_days" by decide),
    getV_setCol_self,
    getV_setCol_ne _
      (show "order_purchase_timestamp" ≠ "order_delivered_customer_date" by decide)]

theorem deliveryRowAfter_getV_dd (parse : Val → Option ℤ) (r : Row) :
    getV (deliveryRowAfter parse r) "delivery_days"
      = tdDays (parseVal parse (getV r "order_delivered_customer_date"))
          (parseVal parse (getV r "order_purchase_timestamp")) := by
  unfold deliveryRowAfter
  rw [getV_setCol_self,
    getV_setCol_ne _
      (show "order_delivered_customer_date" ≠ "order_purchase_timestamp" by decide),
    getV_setCol_self, getV_setCol_self,
    getV_setCol_ne _
      (show "order_purchase_timestamp" ≠ "order_delivered_customer_date" by decide)]

/-- The `delivery_days` value of every delivery-join row is numeric or
null (it is a `tdDays` result carried over from the mutated orders
row). -/
theorem deliveryData_dd_num_or_null (parse : Val → Option ℤ)
    (orders customers : List Row) :
    ∀ m ∈ deliveryData parse orders customers,
      getV m "delivery_days" = vnull ∨ ∃ q, getV m "delivery_days" = vnum q := by
  intro m hm
  obtain ⟨l, hl, hprop⟩ := mergeLeft_origin hm
  simp only [ordersAfterDelivery, List.mem_map] at hl
  obtain ⟨r0, hr0, hlr⟩ := hl
  have hhas : hasCol l "delivery_days" = true := by
    rw [← hlr]
    exact hasCol_setCol_self _ _ _
  rw [(hprop "delivery_days" hhas).1, ← hlr, deliveryRowAfter_getV_dd]
  cases parseVal parse (getV r0 "order_delivered_customer_date") <;>
    cases parseVal parse (getV r0 "order_purchase_timestamp") <;>
    simp [tdDays]

/-- Skipping nulls before reading out the numeric entries changes
nothing when every non-null entry is numeric. -/
theorem nums_filter_ne_null {vs : List Val}
    (h : ∀ v ∈ vs, v = vnull ∨ ∃ q, v = vnum q) :
    nums (vs.filter (fun v => v ≠ vnull)) = nums vs := by
  induction vs with
  | nil => rfl
  | cons a t ih =>
    have ht : ∀ v ∈ t, v = vnull ∨ ∃ q, v = vnum q :=
      fun v hv => h v (List.mem_cons_of_mem a hv)
    rcases h a (List.mem_cons_self a t) with ha | ⟨q, ha⟩ <;> subst ha
    · simpa [nums, toNum] using ih ht
    · simpa [nums, toNum] using ih ht

/-- Rows of the delivery join keep the (non-null) `order_id` of their
underlying orders row. -/
theorem deliveryData_oid_nonnull {parse : Val → Option ℤ}
    {orders customers : List Row}
    (h : ∀ r ∈ orders, getV r "order_id" ≠ vnull) :
    ∀ m ∈ deliveryData parse orders customers, getV m "order_id" ≠ vnull := by
  intro m hm
  obtain ⟨l, hl, hprop⟩ := mergeLeft_origin hm
  simp only [ordersAfterDelivery, List.mem_map] at hl
  obtain ⟨r0, hr0, hlr⟩ := hl
  have hoid : getV l "order_id" = getV r0 "order_id" := by
    rw [← hlr]
    exact deliveryRowAfter_getV_other (by decide) (by decide) (by decide)
  have hlne : getV l "order_id" ≠ vnull := by
    rw [hoid]; exact h r0 hr0
  rw [(hprop "order_id" (hasCol_of_getV_ne hlne)).1]
  exact hlne

/-! ### Lemmas about the master-table load loops -/

theorem insertBatch_spec (f : MasterFact → Bool) (b : List Row) :
    ∀ e0 : ℕ,
      (insertBatch f e0 b).1
          = (b.filter (fun r => !f (projectMasterRow r))).map projectMasterRow ∧
      (insertBatch f e0 b).2.1 = b.countP (fun r => !f (projectMasterRow r)) ∧
      (insertBatch f e0 b).2.2.1 = b.countP (fun r => f (projectMasterRow r)) ∧
      (insertBatch f e0 b).2.2.2
          = min (e0 + b.countP (fun r => f (projectMasterRow r))) 5 - min e0 5 := by
  induction b with
  | nil =>
    intro e0
    refine ⟨rfl, rfl, rfl, by simp [insertBatch]⟩
  | cons r rs ih =>
    intro e0
    by_cases hf : f (projectMasterRow r) = true
    · have h1 := ih (e0 + 1)
      rcases hrec : insertBatch f (e0 + 1) rs with ⟨facts, t, e, lg⟩
      rw [hrec] at h1
      obtain ⟨hb1, hb2, hb3, hb4⟩ := h1
      simp only at hb1 hb2 hb3 hb4
      simp only [insertBatch, hf, if_pos, hrec]
      refine ⟨?_, ?_, ?_, ?_⟩
      · simpa [List.filter_cons, hf] using hb1
      · simpa [List.countP_cons, hf] using hb2
      · simp [List.countP_cons, hf, hb3]
      · simp only [List.countP_cons, hf]
        rw [hb4]
        by_cases h5 : e0 + 1 ≤ 5 <;> simp [h5] <;> omega
    · have h1 := ih e0
      rcases hrec : insertBatch f e0 rs with ⟨facts, t, e, lg⟩
      rw [hrec] at h1
      obtain ⟨hb1, hb2, hb3, hb4⟩ := h1
      simp only at hb1 hb2 hb3 hb4
      simp only [insertBatch, hf, if_neg, hrec]
      have hfb : f (projectMasterRow r) = false := by simpa using hf
      refine ⟨?_, ?_, ?_, ?_⟩
      · simp [List.filter_cons, hfb, hb1]
      · simp [List.countP_cons, hfb, hb2]
      · simp [List.countP_cons, hfb, hb3]
      · simp [List.countP_cons, hfb, hb4]

theorem loadBatches_spec (f : MasterFact → Bool) (bs : List (List Row)) :
    ∀ e0 : ℕ,
      (loadBatches f e0 bs).1
          = bs.map (fun b => (b.filter (fun r => !f (projectMasterRow r))).map projectMasterRow) ∧
      (loadBatches f e0 bs).2.1
          = bs.flatten.countP (fun r => !f (projectMasterRow r)) ∧
      (loadBatches f e0 bs).2.2.1
          = bs.flatten.countP (fun r => f (projectMasterRow r)) ∧
      (loadBatches f e0 bs).2.2.2
          = min (e0 + bs.flatten.countP (fun r => f (projectMasterRow r))) 5 - min e0 5 := by
  induction bs with
  | nil =>
    intro e0
    refine ⟨rfl, rfl, rfl, by simp [loadBatches]⟩
  | cons b bs ih =>
    intro e0
    obtain ⟨ib1, ib2, ib3, ib4⟩ := insertBatch_spec f b e0
    rcases hb : insertBatch f e0 b with ⟨facts, t, e, lg⟩
    rw [hb] at ib1 ib2 ib3 ib4
    simp only at ib1 ib2 ib3 ib4
    obtain ⟨lb1, lb2, lb3, lb4⟩ := ih (e0 + e)
    rcases hl : loadBatches f (e0 + e) bs with ⟨commits, t2, e2, lg2⟩
    rw [hl] at lb1 lb2 lb3 lb4
    simp only at lb1 lb2 lb3 lb4
    simp only [loadBatches, hb, hl]
    refine ⟨?_, ?_, ?_, ?_⟩
    · simp [ib1, lb1]
    · simp [List.countP_append, ib2, lb2]
    · simp [List.countP_append, ib3, lb3]
    · simp only [List.flatten_cons, List.countP_append]
      omega

/-- With enough fuel, concatenating the slices recovers the list
(batch size ≥ 1). -/
theorem chunksAux_flatten (n : ℕ) (hn : 1 ≤ n) :
    ∀ fuel : ℕ, ∀ l : List Row, l.length ≤ fuel → (chunksAux n fuel l).flatten = l := by
  intro fuel
  induction fuel with
  | zero =>
    intro l hl
    cases l with
    | nil => rfl
    | cons r rs => simp at hl
  | succ m ih =>
    intro l hl
    cases l with
    | nil => rfl
    | cons r rs =>
      rw [chunksAux, List.flatten_cons]
      have hlen : ((r :: rs).drop (n - 1 + 1)).length ≤ m := by
        simp only [List.length_drop, List.length_cons]
        simp only [List.length_cons] at hl
        omega
      rw [ih _ hlen]
      have hsucc : n - 1 + 1 = n := by omega
      rw [hsucc, List.take_append_drop]

/-- Concatenating the batch slices recovers the list (batch size ≥ 1). -/
theorem chunksOf_flatten (n : ℕ) (hn : 1 ≤ n) (l : List Row) :
    (chunksOf n l).flatten = l :=
  chunksAux_flatten n hn l.length l le_rfl

/-- With enough fuel, every slice has at most `n` rows. -/
theorem chunksAux_length_le (n : ℕ) :
    ∀ fuel : ℕ, ∀ l : List Row, ∀ b ∈ chunksAux n fuel l, b.length ≤ n := by
  intro fuel
  induction fuel with
  | zero =>
    intro l b hb
    cases l with
    | nil => simp [chunksAux] at hb
    | cons r rs => simp [chunksAux] at hb
  | succ m ih =>
    intro l b hb
    cases l with
    | nil => simp [chunksAux] at hb
    | cons r rs =>
      rw [chunksAux] at hb
      rcases List.mem_cons.mp hb with hb1 | hb2
      · rw [hb1]
        exact List.length_take_le _ _
      · exact ih _ b hb2

/-- Every batch slice has at most `n` rows. -/
theorem chunksOf_length_le (n : ℕ) (l : List Row) :
    ∀ b ∈ chunksOf n l, b.length ≤ n :=
  chunksAux_length_le n l.length l

/-- Flattening per-batch filtered projections equals filtering and
projecting the flattened rows. -/
theorem flatten_map_filter_map (p : Row → Bool) (bs : List (List Row)) :
    (bs.map (fun b => (b.filter p).map projectMasterRow)).flatten
      = (bs.flatten.filter p).map projectMasterRow := by
  induction bs with
  | nil => rfl
  | cons b bs ih => simp [List.filter_append, ih]

/-! ### Claims -/

/-- C8: the cleaner (`dropna(subset := cols)`, used with
`{customer_id}`, `{order_id, customer_id}`, `{order_id}` in
`transform_data`) keeps only rows whose required columns are all
non-null, never grows the relation, and maps an empty input to an empty
output (it is a total function, so it cannot fail). -/
theorem C8_cleaner_exclusionary (rel : List Row) (cols : List String) :
    (∀ r ∈ dropnaSubset rel cols, ∀ c ∈ cols, getV r c ≠ vnull) ∧
    (dropnaSubset rel cols).length ≤ rel.length ∧
    (rel = [] → dropnaSubset rel cols = []) := by
  refine ⟨?_, ?_, ?_⟩
  · intro r hr c hc
    simp only [dropnaSubset, List.mem_filter] at hr
    have := (List.all_eq_true.mp hr.2) c hc
    simpa using this
  · exact List.length_filter_le _ _
  · rintro rfl; rfl

/-- Witness for C8 at a concrete relation: the surviving row has a
non-null `customer_id` and the output is no longer than the input. -/
theorem C8_cleaner_exclusionary_witness :
    getV [("customer_id", vstr "c1")] "customer_id" ≠ vnull ∧
    (dropnaSubset [[("customer_id", vstr "c1")], [("customer_id", vnull)]]
      ["customer_id"]).length ≤ 2 :=
  ⟨(C8_cleaner_exclusionary
      [[("customer_id", vstr "c1")], [("customer_id", vnull)]] ["customer_id"]).1
      [("customer_id", vstr "c1")] (by decide) "customer_id" (by decide),
    (C8_cleaner_exclusionary
      [[("customer_id", vstr "c1")], [("customer_id", vnull)]] ["customer_id"]).2.1⟩

/-- C2: left-join fan-out.  For an order id `O` occurring exactly once
in the cleaned orders (order ids are unique keys per the data model)
whose customer matches at most one cleaned customer row (customer ids are
unique keys), the merged relation contains exactly
`max 1 i * max 1 p` rows with `order_id = O`, where `i`/`p` are the
numbers of matching cleaned order-item/payment rows (an unmatched side
contributes one null-filled row, not zero).  Moreover every cleaned
order survives into at least one merged row. -/
theorem C2_fanout_and_completeness
    (customers order_items payments orders : List Row) (O : Val)
    (hO : (dropnaSubset orders ["order_id", "customer_id"]).countP
        (fun o => getV o "order_id" = O) = 1)
    (hcu : ∀ o ∈ dropnaSubset orders ["order_id", "customer_id"],
        getV o "order_id" = O →
        (dropnaSubset customers ["customer_id"]).countP
          (fun r => getV r "customer_id" = getV o "customer_id") ≤ 1) :
    ((transform_data customers order_items payments orders).1).countP
        (fun m => getV m "order_id" = O)
      = max 1 ((dropnaSubset order_items ["order_id"]).countP
            (fun r => getV r "order_id" = O))
        * max 1 ((dropnaSubset payments ["order_id"]).countP
            (fun r => getV r "order_id" = O)) ∧
    ∀ o ∈ (transform_data customers order_items payments orders).2.2,
      ∃ m ∈ (transform_data customers order_items payments orders).1,
        getV m "order_id" = getV o "order_id" := by
  set CU := dropnaSubset customers ["customer_id"] with hCU
  set OR := dropnaSubset orders ["order_id", "customer_id"] with hORdef
  set IT := dropnaSubset order_items ["order_id"] with hIT
  set PA := dropnaSubset payments ["order_id"] with hPA
  set S1 := mergeLeft OR CU "customer_id" with hS1
  set S2 := mergeLeft S1 IT "order_id" with hS2
  have htrans1 : (transform_data customers order_items payments orders).1
      = mergeLeft S2 PA "order_id" := rfl
  have htrans2 : (transform_data customers order_items payments orders).2.2 = OR := rfl
  have hORhas : ∀ o ∈ OR, hasCol o "order_id" = true := by
    intro o ho
    exact hasCol_of_getV_ne (dropna_getV_ne ho "order_id" (by decide))
  have hS1has : ∀ m ∈ S1, hasCol m "order_id" = true := by
    intro m hm
    obtain ⟨l, hl, hp⟩ := mergeLeft_origin hm
    exact (hp _ (hORhas l hl)).2
  have hS2has : ∀ m ∈ S2, hasCol m "order_id" = true := by
    intro m hm
    obtain ⟨l, hl, hp⟩ := mergeLeft_origin hm
    exact (hp _ (hS1has l hl)).2
  have hA1 : S1.countP (fun m => getV m "order_id" = O) = 1 := by
    have h1 := countP_mergeLeft OR CU "customer_id" "order_id" O hORhas
    have hconst : ∀ l ∈ OR, getV l "order_id" = O →
        (fun l => max 1 (CU.countP
          (fun r => getV r "customer_id" = getV l "customer_id"))) l = 1 := by
      intro l hl hlo
      have hle := hcu l hl hlo
      simp only
      omega
    have h2 := sum_ite_count OR (fun l => getV l "order_id" = O)
      (fun l => max 1 (CU.countP
        (fun r => getV r "customer_id" = getV l "customer_id"))) 1 hconst
    rw [hS1]
    exact h1.trans (h2.trans (by rw [Nat.mul_one]; exact hO))
  have hA2 : S2.countP (fun m => getV m "order_id" = O)
      = max 1 (IT.countP (fun r => getV r "order_id" = O)) := by
    have h1 := countP_mergeLeft S1 IT "order_id" "order_id" O hS1has
    have hconst : ∀ l ∈ S1, getV l "order_id" = O →
        (fun l => max 1 (IT.countP
          (fun r => getV r "order_id" = getV l "order_id"))) l
          = max 1 (IT.countP (fun r => getV r "order_id" = O)) := by
      intro l _ hlo
      simp only
      congr 1
      apply List.countP_congr
      intro r _
      simp [hlo]
    have h2 := sum_ite_count S1 (fun l => getV l "order_id" = O)
      (fun l => max 1 (IT.countP
        (fun r => getV r "order_id" = getV l "order_id")))
      (max 1 (IT.countP (fun r => getV r "order_id" = O))) hconst
    rw [hS2]
    exact h1.trans (h2.trans (by rw [hA1, Nat.one_mul]))
  have hA3 : (mergeLeft S2 PA "order_id").countP (fun m => getV m "order_id" = O)
      = max 1 (IT.countP (fun r => getV r "order_id" = O))
        * max 1 (PA.countP (fun r => getV r "order_id" = O)) := by
    have h1 := countP_mergeLeft S2 PA "order_id" "order_id" O hS2has
    have hconst : ∀ l ∈ S2, getV l "order_id" = O →
        (fun l => max 1 (PA.countP
          (fun r => getV r "order_id" = getV l "order_id"))) l
          = max 1 (PA.countP (fun r => getV r "order_id" = O)) := by
      intro l _ hlo
      simp only
      congr 1
      apply List.countP_congr
      intro r _
      simp [hlo]
    have h2 := sum_ite_count S2 (fun l => getV l "order_id" = O)
      (fun l => max 1 (PA.countP
        (fun r => getV r "order_id" = getV l "order_id")))
      (max 1 (PA.countP (fun r => getV r "order_id" = O))) hconst
    exact h1.trans (h2.trans (by rw [hA2]))
  constructor
  · rw [htrans1]
    exact hA3
  · intro o ho
    rw [htrans2] at ho
    obtain ⟨m1, hm1, hp1⟩ := mergeLeft_total (L := OR) (R := CU) "customer_id" ho
    obtain ⟨m2, hm2, hp2⟩ := mergeLeft_total (L := S1) (R := IT) "order_id" hm1
    obtain ⟨m3, hm3, hp3⟩ := mergeLeft_total (L := S2) (R := PA) "order_id" hm2
    refine ⟨m3, ?_, ?_⟩
    · rw [htrans1]
      exact hm3
    · have hq1 := hp1 "order_id" (hORhas o ho)
      have hq2 := hp2 "order_id" hq1.2
      have hq3 := hp3 "order_id" hq2.2
      rw [hq3.1, hq2.1, hq1.1]

/-- Witness for C2 on the §8-style scenario: order `"o1"` with 2 item
rows and 3 payment rows fans out into `max 1 2 * max 1 3 = 6` merged
rows, and the cleaned order reaches the merged relation. -/
theorem C2_fanout_and_completeness_witness :
    ((transform_data scCustomers scItems scPayments scOrders).1).countP
        (fun m => getV m "order_id" = vstr "o1") = 6 ∧
    ∃ m ∈ (transform_data scCustomers scItems scPayments scOrders).1,
      getV m "order_id" = getV scOrder "order_id" := by
  have h := C2_fanout_and_completeness scCustomers scItems scPayments scOrders
    (vstr "o1") (by decide) (by decide)
  refine ⟨h.1.trans (by decide), ?_⟩
  exact h.2 scOrder (by decide)

/-- C3 counterexample: a merged relation whose only row has a null
(absent) `product_id` produces an EMPTY product summary: the row is
dropped by `groupby("product_id")` (pandas default `dropna=True`), it
does not form a null-key aggregate group as the claim states. -/
theorem C3_null_product_counterexample :
    create_product_summary [[("order_id", vstr "o"), ("price", vnum 10)]] = [] := by
  rfl

/-- C3 amended: merged rows whose `product_id` is null are excluded
from the product summary; every group key `create_product_summary`
produces is non-null. -/
theorem C3_product_keys_nonnull (merged : List Row) :
    ∀ p ∈ create_product_summary merged, p.product_id ≠ vnull := by
  intro p hp
  simp only [create_product_summary, List.mem_map] at hp
  obtain ⟨k, hk, hpk⟩ := hp
  have hk0 : k.getD 0 vnull ≠ vnull := by
    simp only [groupKeys, List.mem_dedup, List.mem_map] at hk
    obtain ⟨r, hr, hkr⟩ := hk
    rw [List.mem_filter] at hr
    have h2 := hr.2
    simp only [keyTup, List.map_cons, List.map_nil, List.all_cons,
      List.all_nil, Bool.and_true, decide_eq_true_eq] at h2
    subst hkr
    simpa [keyTup] using h2
  rw [← hpk]
  exact hk0

/-- Witness for the amended C3: the non-null group produced by a
one-row merged relation with `product_id = "p"`. -/
theorem C3_product_keys_nonnull_witness :
    ({ product_id := vstr "p", total_orders := 0, total_items_sold := 0,
       total_revenue := 0, avg_price := none, total_freight := 0,
       avg_freight := none } : ProdRow).product_id ≠ vnull :=
  C3_product_keys_nonnull [[("product_id", vstr "p")]] _ (by decide)

/-- C1: in the sales summary, each (customer_id, customer_state,
customer_city) group row reports `total_orders` equal to the number of
distinct `order_id` values among the group's merged rows and
`total_items` equal to the group's raw row count.  The hypothesis (no
merged row has a null `order_id`) holds for every output of
`transform_data`, whose left relation is cleaned on `order_id`. -/
theorem C1_sales_distinct_vs_row_counts (merged : List Row)
    (h : ∀ r ∈ merged, getV r "order_id" ≠ vnull) :
    ∀ k ∈ groupKeys salesGroupCols merged,
      mkSalesAggRow merged k ∈ salesAgg_olist merged ∧
      (mkSalesAggRow merged k).total_orders
          = ((colVals (groupRows salesGroupCols merged k) "order_id").dedup).length ∧
      (mkSalesAggRow merged k).total_items
          = (groupRows salesGroupCols merged k).length := by
  intro k hk
  have hg : ∀ x ∈ groupRows salesGroupCols merged k, getV x "order_id" ≠ vnull :=
    fun x hx => h x (mem_of_mem_groupRows hx)
  refine ⟨List.mem_map_of_mem _ hk, ?_, ?_⟩
  · show nuniqueNN (colVals (groupRows salesGroupCols merged k) "order_id") = _
    unfold nuniqueNN
    congr 2
    rw [List.filter_eq_self]
    intro v hv
    rw [colVals, List.mem_map] at hv
    obtain ⟨x, hx, hvx⟩ := hv
    simpa [← hvx] using hg x hx
  · exact cntNN_eq_length hg

/-- Witness for C1, on the §8-style scenario (1 order, 2 items, 3
payments): the single summary group reports `total_orders = 1` and
`total_items = 6`, routed through the theorem's group-level
equalities. -/
theorem C1_sales_distinct_vs_row_counts_witness :
    (mkSalesAggRow scMerged [vstr "c1", vstr "SP", vstr "sao paulo"]).total_orders = 1 ∧
    (mkSalesAggRow scMerged [vstr "c1", vstr "SP", vstr "sao paulo"]).total_items = 6 := by
  have h := C1_sales_distinct_vs_row_counts scMerged (by decide)
    [vstr "c1", vstr "SP", vstr "sao paulo"] (by decide)
  exact ⟨h.2.1.trans (by decide), h.2.2.trans (by decide)⟩

/-- The two persistence paths agree on a group row whose keys are
strings and whose mean aggregates are all non-null: `fillna(0)` and the
notna guards of pipeline_olist.py then change nothing, and `str` of a
string is itself. -/
theorem persistSalesRow_agree (r : SalesAggRow)
    (h1 : isStr r.customer_id = true) (h2 : isStr r.customer_state = true)
    (h3 : isStr r.customer_city = true) (h4 : r.avg_order_value ≠ none)
    (h5 : r.avg_price ≠ none) (h6 : r.avg_freight ≠ none) :
    persistSalesRow_olist r = persistSalesRow_prefect r := by
  obtain ⟨i, s, c, ts, tor, ti, a1, a2, a3⟩ := r
  cases i with
  | vnum q => simp [isStr] at h1
  | vnull => simp [isStr] at h1
  | vstr si =>
    cases s with
    | vnum q => simp [isStr] at h2
    | vnull => simp [isStr] at h2
    | vstr ss =>
      cases c with
      | vnum q => simp [isStr] at h3
      | vnull => simp [isStr] at h3
      | vstr sc =>
        cases a1 with
        | none => exact absurd rfl h4
        | some q1 =>
          cases a2 with
          | none => exact absurd rfl h5
          | some q2 =>
            cases a3 with
            | none => exact absurd rfl h6
            | some q3 =>
              simp [persistSalesRow_olist, persistSalesRow_prefect,
                fillna0Sales, pyStr]

/-- C4 counterexample: on a merged relation whose single row has no
numeric columns at all, the two `create_sales_summary` implementations
persist different rows — pipeline_olist.py's `fillna(0)` turns the null
mean aggregates into 0 while prefect_pipeline.py persists the nulls
unchanged. -/
theorem C4_sales_summaries_differ_counterexample :
    create_sales_summary_olist
        [[("customer_id", vstr "c"), ("customer_state", vstr "SP"),
          ("customer_city", vstr "x"), ("order_id", vstr "o")]]
      ≠ create_sales_summary_prefect
        [[("customer_id", vstr "c"), ("customer_state", vstr "SP"),
          ("customer_city", vstr "x"), ("order_id", vstr "o")]] := by
  decide

/-- C4 amended: the two implementations compute identical grouped
aggregate relations, and they persist identical rows for every group
whose keys are strings and whose mean aggregates are non-null; they
differ exactly in null handling — only pipeline_olist.py coerces null
numeric aggregates to 0 before persistence. -/
theorem C4_sales_summaries_agree_when_nonnull (merged : List Row) :
    salesAgg_olist merged = salesAgg_prefect merged ∧
    ∀ k ∈ groupKeys salesGroupCols merged,
      isStr (mkSalesAggRow merged k).customer_id = true →
      isStr (mkSalesAggRow merged k).customer_state = true →
      isStr (mkSalesAggRow merged k).customer_city = true →
      (mkSalesAggRow merged k).avg_order_value ≠ none →
      (mkSalesAggRow merged k).avg_price ≠ none →
      (mkSalesAggRow merged k).avg_freight ≠ none →
      persistSalesRow_olist (mkSalesAggRow merged k)
        = persistSalesRow_prefect (mkSalesAggRow merged k) := by
  refine ⟨rfl, ?_⟩
  intro k _ h1 h2 h3 h4 h5 h6
  exact persistSalesRow_agree _ h1 h2 h3 h4 h5 h6

/-- Witness for the amended C4 on the §8-style scenario: the aggregate
tables agree, and the single (all-string-keyed, fully numeric) group is
persisted identically by both implementations. -/
theorem C4_sales_summaries_agree_when_nonnull_witness :
    salesAgg_olist scMerged = salesAgg_prefect scMerged ∧
    persistSalesRow_olist (mkSalesAggRow scMerged [vstr "c1", vstr "SP", vstr "sao paulo"])
      = persistSalesRow_prefect
          (mkSalesAggRow scMerged [vstr "c1", vstr "SP", vstr "sao paulo"]) :=
  ⟨(C4_sales_summaries_agree_when_nonnull scMerged).1,
    (C4_sales_summaries_agree_when_nonnull scMerged).2
      [vstr "c1", vstr "SP", vstr "sao paulo"] (by decide) (by decide) (by decide)
      (by decide) (by decide) (by decide) (by decide)⟩

/-- C5: every state row of the delivery summary satisfies
`delivered_orders ≤ total_orders` and `0 ≤ delivery_rate ≤ 100`:
`delivered_orders` counts the group's non-null `delivery_days` entries,
`total_orders` counts its (all non-null, for cleaned orders) `order_id`
entries, i.e. the whole group.  The hypothesis (no orders row has a null
`order_id`) holds for the cleaned orders `transform_data` returns. -/
theorem C5_delivery_rate_bounds (parse : Val → Option ℤ)
    (orders customers : List Row)
    (h : ∀ r ∈ orders, getV r "order_id" ≠ vnull) :
    ∀ k ∈ groupKeys ["customer_state"] (deliveryData parse orders customers),
      mkDeliveryRow (deliveryData parse orders customers) k
          ∈ create_delivery_summary parse orders customers ∧
      (mkDeliveryRow (deliveryData parse orders customers) k).delivered_orders
          ≤ (mkDeliveryRow (deliveryData parse orders customers) k).total_orders ∧
      0 ≤ (mkDeliveryRow (deliveryData parse orders customers) k).delivery_rate ∧
      (mkDeliveryRow (deliveryData parse orders customers) k).delivery_rate ≤ 100 := by
  intro k hk
  have hgoid : ∀ x ∈ groupRows ["customer_state"]
      (deliveryData parse orders customers) k, getV x "order_id" ≠ vnull :=
    fun x hx => deliveryData_oid_nonnull h x (mem_of_mem_groupRows hx)
  have htot : cntNN (colVals (groupRows ["customer_state"]
        (deliveryData parse orders customers) k) "order_id")
      = (groupRows ["customer_state"] (deliveryData parse orders customers) k).length :=
    cntNN_eq_length hgoid
  have hpos : 0 < (groupRows ["customer_state"]
      (deliveryData parse orders customers) k).length :=
    List.length_pos.mpr (groupRows_ne_nil hk)
  have hdel : cntNN (colVals (groupRows ["customer_state"]
        (deliveryData parse orders customers) k) "delivery_days")
      ≤ (groupRows ["customer_state"] (deliveryData parse orders customers) k).length := by
    refine le_trans (List.length_filter_le _ _) ?_
    rw [colVals, List.length_map]
  have hdt : (mkDeliveryRow (deliveryData parse orders customers) k).delivered_orders
      ≤ (mkDeliveryRow (deliveryData parse orders customers) k).total_orders := by
    show cntNN _ ≤ cntNN _
    rw [htot]
    exact hdel
  have htpos : 0 < (mkDeliveryRow (deliveryData parse orders customers) k).total_orders := by
    show 0 < cntNN _
    rw [htot]
    exact hpos
  refine ⟨List.mem_map_of_mem _ hk, hdt, ?_, ?_⟩
  · show (0 : ℚ) ≤ (cntNN _ : ℚ) / (cntNN _ : ℚ) * 100
    positivity
  · show ((cntNN _ : ℚ) / (cntNN _ : ℚ) * 100 : ℚ) ≤ 100
    have ht0 : (0 : ℚ) < (cntNN (colVals (groupRows ["customer_state"]
        (deliveryData parse orders customers) k) "order_id") : ℚ) := by
      exact_mod_cast htpos
    have hdq : ((cntNN (colVals (groupRows ["customer_state"]
          (deliveryData parse orders customers) k) "delivery_days") : ℚ))
        ≤ (cntNN (colVals (groupRows ["customer_state"]
          (deliveryData parse orders customers) k) "order_id") : ℚ) := by
      exact_mod_cast hdt
    calc (cntNN (colVals (groupRows ["customer_state"]
            (deliveryData parse orders customers) k) "delivery_days") : ℚ)
          / (cntNN (colVals (groupRows ["customer_state"]
            (deliveryData parse orders customers) k) "order_id") : ℚ) * 100
        ≤ 1 * 100 := by
          apply mul_le_mul_of_nonneg_right ((div_le_one ht0).mpr hdq)
          norm_num
      _ = 100 := by norm_num

/-- Witness for C5 on the scenario orders/customers with an
all-unparseable timestamp oracle: the SP state row satisfies the
bounds. -/
theorem C5_delivery_rate_bounds_witness :
    (mkDeliveryRow (deliveryData (fun _ => none) scOrders scCustomers)
        [vstr "SP"]).delivered_orders
      ≤ (mkDeliveryRow (deliveryData (fun _ => none) scOrders scCustomers)
        [vstr "SP"]).total_orders ∧
    0 ≤ (mkDeliveryRow (deliveryData (fun _ => none) scOrders scCustomers)
        [vstr "SP"]).delivery_rate ∧
    (mkDeliveryRow (deliveryData (fun _ => none) scOrders scCustomers)
        [vstr "SP"]).delivery_rate ≤ 100 :=
  (C5_delivery_rate_bounds (fun _ => none) scOrders scCustomers (by decide)
    [vstr "SP"] (by decide)).2

/-- C6: per order, `delivery_days` is non-null exactly when both
timestamps parse, in which case it is the whole-day floor of their
difference; per state group, `delivered_orders` counts exactly the rows
with non-null `delivery_days`, and each numeric aggregate
(mean/median/min/max/std, the last via its variance) computed over the
whole group equals the one computed over only those delivered rows —
null entries are excluded. -/
theorem C6_delivery_days_semantics (parse : Val → Option ℤ)
    (orders customers : List Row) :
    (∀ r ∈ orders,
      (getV (deliveryRowAfter parse r) "delivery_days" = vnull ↔
        (parse (getV r "order_delivered_customer_date") = none ∨
          parse (getV r "order_purchase_timestamp") = none)) ∧
      (∀ dts pts : ℤ,
        parse (getV r "order_delivered_customer_date") = some dts →
        parse (getV r "order_purchase_timestamp") = some pts →
        getV (deliveryRowAfter parse r) "delivery_days"
          = vnum ((⌊((dts : ℚ) - (pts : ℚ)) / 86400⌋ : ℤ) : ℚ))) ∧
    (∀ k ∈ groupKeys ["customer_state"] (deliveryData parse orders customers),
      (mkDeliveryRow (deliveryData parse orders customers) k).delivered_orders
        = ((groupRows ["customer_state"] (deliveryData parse orders customers) k).filter
            (fun m => getV m "delivery_days" ≠ vnull)).length ∧
      (mkDeliveryRow (deliveryData parse orders customers) k).avg_delivery_days
        = meanNN (colVals ((groupRows ["customer_state"]
            (deliveryData parse orders customers) k).filter
            (fun m => getV m "delivery_days" ≠ vnull)) "delivery_days") ∧
      (mkDeliveryRow (deliveryData parse orders customers) k).median_delivery_days
        = medianNN (colVals ((groupRows ["customer_state"]
            (deliveryData parse orders customers) k).filter
            (fun m => getV m "delivery_days" ≠ vnull)) "delivery_days") ∧
      (mkDeliveryRow (deliveryData parse orders customers) k).fastest_delivery
        = minNN (colVals ((groupRows ["customer_state"]
            (deliveryData parse orders customers) k).filter
            (fun m => getV m "delivery_days" ≠ vnull)) "delivery_days") ∧
      (mkDeliveryRow (deliveryData parse orders customers) k).slowest_delivery
        = maxNN (colVals ((groupRows ["customer_state"]
            (deliveryData parse orders customers) k).filter
            (fun m => getV m "delivery_days" ≠ vnull)) "delivery_days") ∧
      (mkDeliveryRow (deliveryData parse orders customers) k).var_delivery_days
        = varNN (colVals ((groupRows ["customer_state"]
            (deliveryData parse orders customers) k).filter
            (fun m => getV m "delivery_days" ≠ vnull)) "delivery_days")) := by
  constructor
  · intro r _
    constructor
    · rw [deliveryRowAfter_getV_dd]
      cases hd : parse (getV r "order_delivered_customer_date") <;>
        cases hp : parse (getV r "order_purchase_timestamp") <;>
        simp [parseVal, tdDays, hd, hp]
    · intro dts pts hd hp
      rw [deliveryRowAfter_getV_dd]
      simp only [parseVal, hd, hp]
      rfl
  · intro k hk
    have hnum : ∀ v ∈ colVals (groupRows ["customer_state"]
        (deliveryData parse orders customers) k) "delivery_days",
        v = vnull ∨ ∃ q, v = vnum q := by
      intro v hv
      rw [colVals, List.mem_map] at hv
      obtain ⟨m, hmg, hvm⟩ := hv
      rw [← hvm]
      exact deliveryData_dd_num_or_null parse orders customers m
        (mem_of_mem_groupRows hmg)
    have hcols : colVals ((groupRows ["customer_state"]
          (deliveryData parse orders customers) k).filter
          (fun m => getV m "delivery_days" ≠ vnull)) "delivery_days"
        = (colVals (groupRows ["customer_state"]
          (deliveryData parse orders customers) k) "delivery_days").filter
          (fun v => v ≠ vnull) := by
      unfold colVals
      rw [List.filter_map]
      rfl
    have hnums : nums (colVals ((groupRows ["customer_state"]
          (deliveryData parse orders customers) k).filter
          (fun m => getV m "delivery_days" ≠ vnull)) "delivery_days")
        = nums (colVals (groupRows ["customer_state"]
          (deliveryData parse orders customers) k) "delivery_days") := by
      rw [hcols]
      exact nums_filter_ne_null hnum
    refine ⟨?_, ?_, ?_, ?_, ?_, ?_⟩
    · show cntNN _ = _
      unfold cntNN
      rw [← hcols, colVals, List.length_map]
    · show meanNN _ = meanNN _
      unfold meanNN
      rw [hnums]
    · show medianNN _ = medianNN _
      unfold medianNN
      rw [hnums]
    · show minNN _ = minNN _
      unfold minNN
      rw [hnums]
    · show maxNN _ = maxNN _
      unfold maxNN
      rw [hnums]
    · show varNN _ = varNN _
      unfold varNN
      rw [hnums]

/-- Witness for C6: with the scenario oracle, the single order's
`delivery_days` is `⌊612000 / 86400⌋ = 7` whole days, and the SP group's
`delivered_orders` equals its count of non-null `delivery_days` rows. -/
theorem C6_delivery_days_semantics_witness :
    getV (deliveryRowAfter scParse scOrder) "delivery_days"
      = vnum ((⌊(((612000 : ℤ) : ℚ) - ((0 : ℤ) : ℚ)) / 86400⌋ : ℤ) : ℚ) ∧
    (mkDeliveryRow (deliveryData scParse scOrders scCustomers)
        [vstr "SP"]).delivered_orders
      = ((groupRows ["customer_state"] (deliveryData scParse scOrders scCustomers)
          [vstr "SP"]).filter (fun m => getV m "delivery_days" ≠ vnull)).length :=
  ⟨((C6_delivery_days_semantics scParse scOrders scCustomers).1 scOrder
      (by decide)).2 612000 0 (by decide) (by decide),
    ((C6_delivery_days_semantics scParse scOrders scCustomers).2 [vstr "SP"]
      (by decide)).1⟩

/-- C7: in the state summary, `total_items` of a group is a plain row
count, so the `total_items` column sums to the number of merged rows
with a non-null `customer_state`: rows with a null state are excluded
from the groupby (consistently, pandas `dropna := True`), and re-adding
their count recovers the full merged row count.  The hypothesis (no
merged row has a null `order_id`) holds for every output of
`transform_data`, whose left relation is cleaned on `order_id`. -/
theorem C7_state_total_items_conservation (merged : List Row)
    (h : ∀ r ∈ merged, getV r "order_id" ≠ vnull) :
    ((create_state_summary merged).map (fun s => s.total_items)).sum
        = (merged.filter (fun r => getV r "customer_state" ≠ vnull)).length ∧
    ((create_state_summary merged).map (fun s => s.total_items)).sum
        + (merged.filter (fun r => getV r "customer_state" = vnull)).length
        = merged.length := by
  have h1 : ((create_state_summary merged).map (fun s => s.total_items)).sum
      = (merged.filter (fun r => getV r "customer_state" ≠ vnull)).length := by
    unfold create_state_summary
    rw [List.map_map]
    calc (((groupKeys ["customer_state"] merged)).map _).sum
        = ((groupKeys ["customer_state"] merged).map
            (fun k => (groupRows ["customer_state"] merged k).length)).sum := by
          apply congrArg List.sum
          apply List.map_congr_left
          intro k _
          show cntNN (colVals (groupRows ["customer_state"] merged k) "order_id") = _
          exact cntNN_eq_length (fun r hr => h r (mem_of_mem_groupRows hr))
      _ = (merged.filter
            (fun r => (keyTup ["customer_state"] r).all (fun v => v ≠ vnull))).length :=
          sum_groupRows_length _ _
      _ = (merged.filter (fun r => getV r "customer_state" ≠ vnull)).length := by
          congr 1
          apply List.filter_congr
          intro r _
          simp [keyTup]
  refine ⟨h1, ?_⟩
  rw [h1, ← List.countP_eq_length_filter, ← List.countP_eq_length_filter,
    List.length_eq_countP_add_countP
      (fun r => decide (getV r "customer_state" ≠ vnull)) merged]
  congr 1
  apply List.countP_congr
  intro r _
  simp

/-- Witness for C7: two SP rows and one null-state row; the state
summary's `total_items` sums to 2, and 2 + 1 recovers the 3 merged
rows. -/
theorem C7_state_total_items_conservation_witness :
    ((create_state_summary
        [[("order_id", vstr "o1"), ("customer_state", vstr "SP")],
         [("order_id", vstr "o2"), ("customer_state", vstr "SP")],
         [("order_id", vstr "o3")]]).map (fun s => s.total_items)).sum
      = ([[("order_id", vstr "o1"), ("customer_state", vstr "SP")],
          [("order_id", vstr "o2"), ("customer_state", vstr "SP")],
          [("order_id", vstr "o3")]].filter
            (fun r => getV r "customer_state" ≠ vnull)).length ∧
    ((create_state_summary
        [[("order_id", vstr "o1"), ("customer_state", vstr "SP")],
         [("order_id", vstr "o2"), ("customer_state", vstr "SP")],
         [("order_id", vstr "o3")]]).map (fun s => s.total_items)).sum
      + ([[("order_id", vstr "o1"), ("customer_state", vstr "SP")],
          [("order_id", vstr "o2"), ("customer_state", vstr "SP")],
          [("order_id", vstr "o3")]].filter
            (fun r => getV r "customer_state" = vnull)).length
      = 3 :=
  C7_state_total_items_conservation
    [[("order_id", vstr "o1"), ("customer_state", vstr "SP")],
     [("order_id", vstr "o2"), ("customer_state", vstr "SP")],
     [("order_id", vstr "o3")]] (by decide)

/-- C9: the master-table load never aborts — every row is either
inserted or counted as an error (`total + errors` covers the input),
errors are exactly the rows whose insert fails, at most the first five
errors produce log lines (`logged = min errors 5`), rows are written in
batches of at most 1000 with one commit per batch, the committed rows
are exactly the projections of the non-failing rows in order, and the
safe accessors return their documented defaults on missing/null input
instead of raising. -/
theorem C9_load_master_robustness (insertFails : MasterFact → Bool)
    (merged : List Row) (commits : List (List MasterFact))
    (total errors logged : ℕ)
    (h : load_master_table insertFails merged = (commits, total, errors, logged)) :
    total + errors = merged.length ∧
    errors = merged.countP (fun r => insertFails (projectMasterRow r)) ∧
    logged = min errors 5 ∧
    commits.length = (chunksOf 1000 merged).length ∧
    (∀ b ∈ commits, b.length ≤ 1000) ∧
    commits.flatten
      = (merged.filter (fun r => !insertFails (projectMasterRow r))).map projectMasterRow ∧
    (∀ row c d, hasCol row c = false → safe_get row c d = d) ∧
    (∀ d, safe_float vnull d = d) ∧
    safe_datetime vnull = vnull := by
  obtain ⟨s1, s2, s3, s4⟩ := loadBatches_spec insertFails (chunksOf 1000 merged) 0
  unfold load_master_table at h
  rw [h] at s1 s2 s3 s4
  simp only at s1 s2 s3 s4
  have hfl : (chunksOf 1000 merged).flatten = merged :=
    chunksOf_flatten 1000 (by norm_num) merged
  rw [hfl] at s2 s3 s4
  have herr : errors = merged.countP (fun r => insertFails (projectMasterRow r)) := s3
  have htot : total = merged.countP (fun r => !insertFails (projectMasterRow r)) := s2
  refine ⟨?_, herr, ?_, ?_, ?_, ?_, ?_, fun d => rfl, rfl⟩
  · have hsplit := List.length_eq_countP_add_countP
      (fun r => insertFails (projectMasterRow r)) merged
    have hcc : merged.countP (fun r => !insertFails (projectMasterRow r))
        = merged.countP (fun a => decide ¬(insertFails (projectMasterRow a) = true)) := by
      apply List.countP_congr
      intro x _
      simp
    rw [htot, herr, hcc]
    omega
  · rw [s4, herr]
    omega
  · rw [s1, List.length_map]
  · intro b hb
    rw [s1, List.mem_map] at hb
    obtain ⟨b0, hb0, hbb⟩ := hb
    rw [← hbb, List.length_map]
    exact le_trans (List.length_filter_le _ _) (chunksOf_length_le 1000 merged b0 hb0)
  · rw [s1, flatten_map_filter_map, hfl]
  · intro row c d hcol
    unfold safe_get
    unfold hasCol at hcol
    cases hf : row.find? (fun p => p.1 = c) with
    | none => rfl
    | some p => rw [hf] at hcol; simp at hcol

/-- Witness for C9: two rows, one failing insert (by the oracle that
rejects string product ids): one row inserted, one error, one log
line. -/
theorem C9_load_master_robustness_witness :
    (1 : ℕ) + 1
      = ([[("order_id", vstr "a"), ("product_id", vstr "p")],
          [("order_id", vstr "b")]] : List Row).length ∧
    (1 : ℕ) = ([[("order_id", vstr "a"), ("product_id", vstr "p")],
          [("order_id", vstr "b")]] : List Row).countP
            (fun r => isStr (projectMasterRow r).product_id) ∧
    (1 : ℕ) = min 1 5 := by
  have thm := C9_load_master_robustness (fun mf => isStr mf.product_id)
    [[("order_id", vstr "a"), ("product_id", vstr "p")], [("order_id", vstr "b")]]
    [[projectMasterRow [("order_id", vstr "b")]]] 1 1 1 (by decide)
  exact ⟨thm.1, thm.2.1, thm.2.2.1⟩

/-- C10: `create_delivery_summary` mutates its input orders relation in
place: on each row the two timestamp columns are overwritten with their
coerce-parsed values and a `delivery_days` column is added, so an orders
relation containing a row without a `delivery_days` column is not equal
to its post-call state.  (Every other relation the aggregators consume
is only read: in this embedding those functions take their inputs
unchanged, and only `ordersAfterDelivery` rewrites rows.) -/
theorem C10_delivery_mutates_orders (parse : Val → Option ℤ)
    (orders : List Row) (r : Row) (hr : r ∈ orders)
    (hdd : hasCol r "delivery_days" = false) :
    getV (deliveryRowAfter parse r) "order_delivered_customer_date"
        = parseVal parse (getV r "order_delivered_customer_date") ∧
    getV (deliveryRowAfter parse r) "order_purchase_timestamp"
        = parseVal parse (getV r "order_purchase_timestamp") ∧
    hasCol (deliveryRowAfter parse r) "delivery_days" = true ∧
    ordersAfterDelivery parse orders ≠ orders := by
  refine ⟨?_, ?_, ?_, ?_⟩
  · show getV (setCol _ "delivery_days" _) "order_delivered_customer_date" = _
    rw [getV_setCol_ne _ (by decide), getV_setCol_ne _ (by decide),
      getV_setCol_self]
  · show getV (setCol _ "delivery_days" _) "order_purchase_timestamp" = _
    rw [getV_setCol_ne _ (by decide), getV_setCol_self,
      getV_setCol_ne _ (by decide)]
  · exact hasCol_setCol_self _ _ _
  · intro heq
    have hfix := map_fix_of_map_eq_self heq r hr
    have : hasCol r "delivery_days" = true := by
      rw [← hfix]
      exact hasCol_setCol_self _ _ _
    rw [this] at hdd
    exact Bool.noConfusion hdd

/-- Witness for C10: one cleaned orders row without a `delivery_days`
column; the relation differs after the delivery aggregator's mutation. -/
theorem C10_delivery_mutates_orders_witness :
    ordersAfterDelivery (fun _ => none) [[("order_id", vstr "o1")]]
      ≠ [[("order_id", vstr "o1")]] :=
  (C10_delivery_mutates_orders (fun _ => none) [[("order_id", vstr "o1")]]
    [("order_id", vstr "o1")] (by decide) (by decide)).2.2.2

end Olist
